import Mathlib

/- Shallow embedding of FileFilter::UnifiedDiffParser (UnifiedDiffParser.cpp) and,
   modelled from the spec, the path form of Exporter::CoberturaExporter::Export.
   Lines of the input text are represented as a `List String`; the C++ input
   stream together with its bookkeeping (`UnifiedDiffParser::Stream`) becomes an
   explicit record, and `std::getline`'s behaviour at end of input (the counter
   is still incremented and the line buffer is cleared) is reproduced exactly. -/

namespace FileFilter

/-- Characters matched by the character class \s of std::wregex (default locale). -/
def isWsChar (c : Char) : Bool :=
  c == ' ' || c == '\t' || c == '\n' || c == '\x0b' || c == '\x0c' || c == '\r'

/-- boost::algorithm::starts_with on character sequences: the first list
is a prefix of the second. -/
def isPref : List Char → List Char → Bool
  | [], _ => true
  | _ :: _, [] => false
  | a :: as, b :: bs => a == b && isPref as bs

/-- boost::algorithm::starts_with: `s` starts with `p`. -/
def strStarts (s p : String) : Bool := isPref p.data s.data

/-- UnifiedDiffParser::FromFilePrefix, the from-file marker "--- ". -/
def fromFileMarker : String := "--- "

/-- UnifiedDiffParser::ToFilePrefix, the to-file marker "+++ ". -/
def toFileMarker : String := "+++ "

/-- GitTargetPrefix, the git destination path marker "b/". -/
def gitTargetPref : String := "b/"

/-- DevNull, the null-device sentinel path. -/
def devNull : String := "/dev/null"

/-- FileFilter::File as used by the parser: a destination path together with the
selected (added/updated) destination line numbers; File::AddSelectedLines appends. -/
structure File where
  path : String
  selectedLines : List Nat
deriving DecidableEq, Repr

/-- UnifiedDiffParser::Stream: the not-yet-read lines, the count of getline calls
made so far (`currentLine_`), and the text stored by the last getline call
(`lastLineRead_`). -/
structure Stream where
  remaining : List String
  currentLine : Nat
  lastLineRead : String
deriving DecidableEq, Repr

/-- Stream::GetLine: on success returns the line and advances; at end of input the
counter is still incremented and the stored line becomes empty (std::getline
clears its buffer on failure), and `none` signals the failed read. -/
def Stream.getLine (s : Stream) : Option String × Stream :=
  match s.remaining with
  | [] => (none, ⟨[], s.currentLine + 1, ""⟩)
  | l :: rest => (some l, ⟨rest, s.currentLine + 1, l⟩)

/-- The error kinds of UnifiedDiffParserException (ErrorExpectFromFilePrefix is
shortened to `errorExpectFromFilePref`). -/
inductive ErrKind where
  | errorCannotReadLine
  | errorExpectFromFilePref
  | errorNoFilenameBeforeHunks
  | errorInvalidHunks
  | errorContextHunks
deriving DecidableEq, Repr

/-- The structured diagnostic carried by UnifiedDiffParser::ThrowError: the value
of `currentLine_`, the value of `lastLineRead_`, and the error kind. -/
structure ParseErr where
  lineNumber : Nat
  lastLine : String
  kind : ErrKind
deriving DecidableEq, Repr

/-- UnifiedDiffParser::ThrowError packaged as a value. -/
def throwErr (s : Stream) (k : ErrKind) : ParseErr :=
  ⟨s.currentLine, s.lastLineRead, k⟩

/-- UnifiedDiffParser::HunksDifferences. -/
structure HunksDifferences where
  startFrom : Nat
  countFrom : Nat
  startTo : Nat
  countTo : Nat
deriving DecidableEq, Repr

/-- Numeric value of a digit string, as std::stoi reads the capture groups. -/
def digitsVal (ds : List Char) : Nat :=
  ds.foldl (fun a c => a * 10 + (c.toNat - '0'.toNat)) 0

/-- Greedy \d+ step: the maximal leading run of digits and the rest. -/
def takeDigits : List Char → List Char × List Char
  | [] => ([], [])
  | c :: rest =>
    if c.isDigit then
      let p := takeDigits rest
      (c :: p.1, p.2)
    else ([], c :: rest)

/-- Greedy \s* step. -/
def dropWs : List Char → List Char
  | [] => []
  | c :: rest => if isWsChar c then dropWs rest else c :: rest

/-- The range fragment `(\d+)(?:,(\d+))?` of the hunk-header regex: a mandatory
number and an optional comma-separated second number.  The comma is consumed only
when digits follow it, which agrees with the regex's backtracking because a
leftover comma can never satisfy the following `\s*[+@]` context. -/
def parseRange (cs : List Char) : Option (Nat × Option Nat × List Char) :=
  match takeDigits cs with
  | ([], _) => none
  | (ds, rest) =>
    match rest with
    | c :: rest2 =>
      if c = ',' then
        match takeDigits rest2 with
        | ([], _) => some (digitsVal ds, none, c :: rest2)
        | (ds2, rest3) => some (digitsVal ds, some (digitsVal ds2), rest3)
      else some (digitsVal ds, none, c :: rest2)
    | [] => some (digitsVal ds, none, [])

/-- UnifiedDiffParser::ExtractHunksDifferences' regex
`^@@\s*-(\d+)(?:,(\d+))?\s*\+(\d+)(?:,(\d+))?\s*@@` applied to the header line,
with the defaults of 1 for the omitted optional groups; `none` when the line does
not match the shape. -/
def parseHunkHeader (line : String) : Option HunksDifferences :=
  match line.data with
  | '@' :: '@' :: cs =>
    match dropWs cs with
    | '-' :: cs2 =>
      match parseRange cs2 with
      | none => none
      | some (sf, ocf, cs3) =>
        match dropWs cs3 with
        | '+' :: cs5 =>
          match parseRange cs5 with
          | none => none
          | some (st, oct, cs6) =>
            match dropWs cs6 with
            | '@' :: '@' :: _ => some ⟨sf, ocf.getD 1, st, oct.getD 1⟩
            | _ => none
        | _ => none
    | _ => none
  | _ => none

/-- Index of the first tab character, as wstring::find(L'\t'). -/
def findTab : List Char → Option Nat
  | [] => none
  | c :: rest => if c == '\t' then some 0 else (findTab rest).map (· + 1)

/-- UnifiedDiffParser::ExtractTargetFile: the line's content after the to-file
marker (4 characters), truncated at the first tab character when one occurs at or
after position 4; a tab inside the marker region would make the C++
`substr(4, endIndex - 4)` count wrap around and be clamped to the whole tail. -/
def extractTargetFile (line : String) : String :=
  match findTab line.data with
  | some e =>
    if 4 ≤ e then String.mk ((line.data.drop 4).take (e - 4))
    else String.mk (line.data.drop 4)
  | none => String.mk (line.data.drop 4)

/-- The reading loop of UnifiedDiffParser::ExtractUpdatedLines over the stream
fields: remaining lines, getline count, last stored line, the running destination
counter, the stop value `startTo + countTo`, and the accumulated selected lines.
Returns the selected lines, the final counter, and the final stream. -/
def extractLoopAux : List String → Nat → String → Nat → Nat → List Nat →
    List Nat × Nat × Stream
  | rem, cnt, last, cur, endL, acc =>
    if cur < endL then
      match rem with
      | [] => (acc, cur, ⟨[], cnt + 1, ""⟩)
      | l :: rest =>
        if strStarts l "-" || strStarts l "\\" then
          extractLoopAux rest (cnt + 1) l cur endL acc
        else if strStarts l "+" then
          extractLoopAux rest (cnt + 1) l (cur + 1) endL (acc ++ [cur])
        else
          extractLoopAux rest (cnt + 1) l (cur + 1) endL acc
    else (acc, cur, ⟨rem, cnt, last⟩)

/-- The same loop started from a bundled stream. -/
def extractLoop (st : Stream) (cur endL : Nat) (acc : List Nat) :
    List Nat × Nat × Stream :=
  extractLoopAux st.remaining st.currentLine st.lastLineRead cur endL acc

/-- UnifiedDiffParser::ExtractUpdatedLines: parse the header (ErrorInvalidHunks
when it does not match, reported at the header's own line), then read content
lines until the destination counter reaches `startTo + countTo`; if the counter
falls short (end of input) the failure is ErrorContextHunks, reported from the
stream state after the failed read. -/
def extractUpdatedLines (st : Stream) (header : String) :
    Except ParseErr (List Nat × Stream) :=
  match parseHunkHeader header with
  | none => .error (throwErr st .errorInvalidHunks)
  | some hd =>
    let r := extractLoop st hd.startTo (hd.startTo + hd.countTo) []
    if r.2.1 ≠ hd.startTo + hd.countTo then
      .error (throwErr r.2.2 .errorContextHunks)
    else .ok (r.1, r.2.2)

/-- files.back().AddSelectedLines(updatedLines): append the lines to the last
registered file. -/
def addSelectedLines : List File → List Nat → List File
  | [], _ => []
  | [f], ls => [⟨f.path, f.selectedLines ++ ls⟩]
  | f :: g :: rest, ls => f :: addSelectedLines (g :: rest) ls

/-- The whole-parse failure: either a UnifiedDiffParserException diagnostic, or
the internal-consistency THROW of UpdateFilePathIfGitDetected (a path lacking the
git destination marker after detection succeeded). -/
inductive ParseFailure where
  | diffErr (e : ParseErr)
  | internalErr
deriving DecidableEq, Repr

/-- The while-loop of UnifiedDiffParser::Parse.  `cnt` and `last` are the stream
bookkeeping before the next getline; `files`, `src` and `git` are the registered
files, the recorded from-file lines and the `foundGitHeader` flag.  The fuel
argument only serves termination: the loop consumes at least one input line per
iteration, so the caller's fuel of `length + 1` is never exhausted. -/
def parseLoopAux : Nat → List String → Nat → String → List File → List String →
    Bool → Except ParseErr (List File × List String × Bool)
  | 0, _, _, _, files, src, git => .ok (files, src, git)
  | _ + 1, [], _, _, files, src, git => .ok (files, src, git)
  | fuel + 1, l :: rest, cnt, _, files, src, git =>
    if strStarts l "diff --git" then
      parseLoopAux fuel rest (cnt + 1) l files src true
    else if strStarts l fromFileMarker then
      match rest with
      | [] => .error ⟨cnt + 2, "", .errorCannotReadLine⟩
      | nl :: rest2 =>
        if strStarts nl toFileMarker then
          parseLoopAux fuel rest2 (cnt + 2) nl
            (files ++ [⟨extractTargetFile nl, []⟩]) (src ++ [l]) git
        else .error ⟨cnt + 2, nl, .errorExpectFromFilePref⟩
    else if strStarts l "@@" then
      match files with
      | [] => .error ⟨cnt + 1, l, .errorNoFilenameBeforeHunks⟩
      | _ =>
        match extractUpdatedLines ⟨rest, cnt + 1, l⟩ l with
        | .error e => .error e
        | .ok (ls, st') =>
          parseLoopAux fuel st'.remaining st'.currentLine st'.lastLineRead
            (addSelectedLines files ls) src git
    else parseLoopAux fuel rest (cnt + 1) l files src git

/-- RemoveDevNull: drop every file whose destination path equals the null-device
sentinel, and drop every recorded from-file line that starts with the from-file
marker followed by the sentinel. -/
def removeDevNull (files : List File) (src : List String) :
    List File × List String :=
  (files.filter (fun f => !(f.path == devNull)),
   src.filter (fun l => !(strStarts l (fromFileMarker ++ devNull))))

/-- IsGitDetected: the git marker was seen, every registered file's path starts
with the git destination marker, and every recorded from-file line starts with
the from-file marker followed by "a/". -/
def isGitDetected (files : List File) (src : List String) (git : Bool) : Bool :=
  git && files.all (fun f => strStarts f.path gitTargetPref)
      && src.all (fun l => strStarts l (fromFileMarker ++ "a/"))

/-- boost::algorithm::erase_head: remove the first `n` characters. -/
def stripHead (n : Nat) (s : String) : String := String.mk (s.data.drop n)

/-- The loop body of UpdateFilePathIfGitDetected: strip the git destination
marker from every path in order; `none` models the THROW taken when a path
unexpectedly lacks the marker at that point. -/
def stripAll : List File → Option (List File)
  | [] => some []
  | f :: fs =>
    if strStarts f.path gitTargetPref then
      match stripAll fs with
      | none => none
      | some rest => some (⟨stripHead 2 f.path, f.selectedLines⟩ :: rest)
    else none

/-- UpdateFilePathIfGitDetected: when git conventions are detected, strip the git
destination marker from every registered path. -/
def updateFilePathIfGitDetected (files : List File) (src : List String)
    (git : Bool) : Option (List File) :=
  if isGitDetected files src git then stripAll files else some files

/-- The post-processing of UnifiedDiffParser::Parse, in the code's order:
RemoveDevNull first, UpdateFilePathIfGitDetected second. -/
def postProcess (files : List File) (src : List String) (git : Bool) :
    Option (List File) :=
  updateFilePathIfGitDetected (removeDevNull files src).1
    (removeDevNull files src).2 git

/-- UnifiedDiffParser::Parse on an input split into lines. -/
def parse (lines : List String) : Except ParseFailure (List File) :=
  match parseLoopAux (lines.length + 1) lines 0 "" [] [] false with
  | .error e => .error (.diffErr e)
  | .ok (files, src, git) =>
    match postProcess files src git with
    | none => .error .internalErr
    | some fs => .ok fs

/-- Content lines that make the destination counter of ExtractUpdatedLines
advance: lines that are neither removed-lines ("-") nor no-newline markers
("\\"). -/
def isPayload (l : String) : Bool := !(strStarts l "-" || strStarts l "\\")

/-- Number of counter-advancing lines in a list. -/
def countPayload (ls : List String) : Nat := (ls.filter isPayload).length

/-- Modelled from the spec: one recorded line of the coverage tree (the
exporter-side data model is not among the provided sources). -/
structure CovLine where
  number : Nat
  executed : Bool
deriving DecidableEq, Repr

/-- Modelled from the spec: a file of the coverage tree. -/
structure CovFile where
  path : String
  lines : List CovLine
deriving DecidableEq, Repr

/-- Modelled from the spec: a module of the coverage tree. -/
structure CovModule where
  name : String
  files : List CovFile
deriving DecidableEq, Repr

/-- Modelled from the spec: the root of the coverage tree. -/
structure CoverageData where
  name : String
  exitCode : Int
  modules : List CovModule
deriving DecidableEq, Repr

/-- Modelled from the spec: one line element of the generated document, with the
line number and a hit count of 1 when executed and 0 otherwise. -/
def renderLine (l : CovLine) : String :=
  "<line number=\"" ++ toString l.number ++ "\" hits=\"" ++
    (if l.executed then "1" else "0") ++ "\"/>"

/-- Modelled from the spec: one class element per file. -/
def renderFile (f : CovFile) : String :=
  "<class filename=\"" ++ f.path ++ "\">" ++
    String.join (f.lines.map renderLine) ++ "</class>"

/-- Modelled from the spec: one package element per module. -/
def renderModule (m : CovModule) : String :=
  "<package name=\"" ++ m.name ++ "\">" ++
    String.join (m.files.map renderFile) ++ "</package>"

/-- Modelled from the spec: the generated document, with a timestamp attribute
supplied by the caller (wall-clock time is not modellable as a pure value). -/
def renderCobertura (ts : Nat) (c : CoverageData) : String :=
  "<coverage timestamp=\"" ++ toString ts ++ "\">" ++
    String.join (c.modules.map renderModule) ++ "</coverage>"

/-- A filesystem path, as a list of components. -/
abbrev FsPath := List String

/-- A filesystem entry: a directory or a regular file with its content. -/
inductive FsEntry where
  | dir
  | file (content : String)
deriving DecidableEq, Repr

/-- A filesystem: an association list from paths to entries. -/
abbrev Fs := List (FsPath × FsEntry)

/-- Look up the entry stored at a path. -/
def fsLookup : Fs → FsPath → Option FsEntry
  | [], _ => none
  | (q, e) :: rest, p => if q = p then some e else fsLookup rest p

/-- Insert or overwrite the entry stored at a path. -/
def fsSet (fs : Fs) (p : FsPath) (e : FsEntry) : Fs :=
  match fs with
  | [] => [(p, e)]
  | (q, e') :: rest => if q = p then (p, e) :: rest else (q, e') :: fsSet rest p e

/-- The proper ancestor paths of a path, shortest first. -/
def parents (p : FsPath) : List FsPath :=
  (List.range (p.length - 1)).map (fun k => p.take (k + 1))

/-- Modelled from the spec: std::filesystem::create_directories over the model,
creating a directory entry at every listed path that has no entry yet. -/
def mkDirs (fs : Fs) : List FsPath → Fs
  | [] => fs
  | q :: qs =>
    match fsLookup fs q with
    | some _ => mkDirs fs qs
    | none => mkDirs (fsSet fs q .dir) qs

/-- The invalid-output-file error of the exporter, naming the offending path
(Exporter::InvalidOutputFileException). -/
structure InvalidOutputFileErr where
  path : FsPath
deriving DecidableEq, Repr

/-- Modelled from the spec: the path form of CoberturaExporter::Export (its
implementation is not among the provided sources, only its tests).  Missing
parent directories are created first; a target that is an existing directory
cannot be opened for writing and yields the invalid-output-file error; otherwise
the rendered document is written at the path, overwriting any existing regular
file.  The coverage tree is a read-only input. -/
def exportToPath (ts : Nat) (cov : CoverageData) (p : FsPath) (fs : Fs) :
    Except InvalidOutputFileErr Fs :=
  match fsLookup (mkDirs fs (parents p)) p with
  | some .dir => .error ⟨p⟩
  | _ => .ok (fsSet (mkDirs fs (parents p)) p (.file (renderCobertura ts cov)))

end FileFilter

namespace FileFilter

/-! Helper lemmas shared by the claim theorems. -/

lemma fromFileMarker_data : fromFileMarker.data = ['-', '-', '-', ' '] := rfl

lemma toFileMarker_data : toFileMarker.data = ['+', '+', '+', ' '] := rfl

lemma gitMarker_data :
    ("diff --git").data = ['d', 'i', 'f', 'f', ' ', '-', '-', 'g', 'i', 't'] := rfl

lemma isPref_append_self (a b : List Char) : isPref a (a ++ b) = true := by
  induction a with
  | nil => rfl
  | cons c cs ih => simp [isPref, ih]

lemma isPref_cons_ex {a : Char} {as bs : List Char}
    (h : isPref (a :: as) bs = true) : ∃ t, bs = a :: t ∧ isPref as t = true := by
  cases bs with
  | nil => simp [isPref] at h
  | cons b bs' =>
    simp [isPref] at h
    exact ⟨bs', by rw [h.1], h.2⟩

lemma strStarts_fromFile_not_gitMarker {l : String}
    (h : strStarts l fromFileMarker = true) : strStarts l "diff --git" = false := by
  unfold strStarts at h ⊢
  rw [fromFileMarker_data] at h
  obtain ⟨t, ht, -⟩ := isPref_cons_ex h
  rw [gitMarker_data, ht]
  simp [isPref]

lemma strStarts_hunk_data {l : String} (h : strStarts l "@@" = true) :
    ∃ t, l.data = '@' :: '@' :: t := by
  unfold strStarts at h
  rw [show ("@@").data = ['@', '@'] from rfl] at h
  obtain ⟨t1, ht1, h1⟩ := isPref_cons_ex h
  obtain ⟨t2, ht2, -⟩ := isPref_cons_ex h1
  exact ⟨t2, by rw [ht1, ht2]⟩

lemma strStarts_hunk_not_gitMarker {l : String}
    (h : strStarts l "@@" = true) : strStarts l "diff --git" = false := by
  obtain ⟨t, ht⟩ := strStarts_hunk_data h
  unfold strStarts
  rw [gitMarker_data, ht]
  simp [isPref]

lemma strStarts_hunk_not_fromFile {l : String}
    (h : strStarts l "@@" = true) : strStarts l fromFileMarker = false := by
  obtain ⟨t, ht⟩ := strStarts_hunk_data h
  unfold strStarts
  rw [fromFileMarker_data, ht]
  simp [isPref]

end FileFilter

namespace FileFilter

lemma countPayload_nil : countPayload [] = 0 := rfl

lemma countPayload_cons (l : String) (ls : List String) :
    countPayload (l :: ls) =
      (if isPayload l then 1 else 0) + countPayload ls := by
  by_cases h : isPayload l
  · simp [countPayload, List.filter, h]
    omega
  · simp [countPayload, List.filter, h]

lemma isPayload_eq_true_iff (l : String) :
    isPayload l = true ↔ (strStarts l "-" || strStarts l "\\") = false := by
  unfold isPayload
  cases (strStarts l "-" || strStarts l "\\") <;> simp

lemma isPayload_eq_false_iff (l : String) :
    isPayload l = false ↔ (strStarts l "-" || strStarts l "\\") = true := by
  unfold isPayload
  cases (strStarts l "-" || strStarts l "\\") <;> simp

lemma extractLoopAux_stop (rem : List String) (cnt : Nat) (last : String)
    (cur : Nat) (acc : List Nat) :
    extractLoopAux rem cnt last cur cur acc = (acc, cur, ⟨rem, cnt, last⟩) := by
  rw [extractLoopAux.eq_def]
  simp

lemma extractLoopAux_nil {cnt : Nat} {last : String} {cur endL : Nat}
    {acc : List Nat} (hlt : cur < endL) :
    extractLoopAux [] cnt last cur endL acc = (acc, cur, ⟨[], cnt + 1, ""⟩) := by
  rw [extractLoopAux.eq_def]
  simp [hlt]

lemma extractLoopAux_cons_skip {l : String} {rest : List String} {cnt : Nat}
    {last : String} {cur endL : Nat} {acc : List Nat} (hlt : cur < endL)
    (h : (strStarts l "-" || strStarts l "\\") = true) :
    extractLoopAux (l :: rest) cnt last cur endL acc =
      extractLoopAux rest (cnt + 1) l cur endL acc := by
  rw [extractLoopAux.eq_def]
  simp [hlt, h]

lemma extractLoopAux_cons_add {l : String} {rest : List String} {cnt : Nat}
    {last : String} {cur endL : Nat} {acc : List Nat} (hlt : cur < endL)
    (h : (strStarts l "-" || strStarts l "\\") = false)
    (hp : strStarts l "+" = true) :
    extractLoopAux (l :: rest) cnt last cur endL acc =
      extractLoopAux rest (cnt + 1) l (cur + 1) endL (acc ++ [cur]) := by
  rw [extractLoopAux.eq_def]
  simp [hlt, h, hp]

lemma extractLoopAux_cons_ctx {l : String} {rest : List String} {cnt : Nat}
    {last : String} {cur endL : Nat} {acc : List Nat} (hlt : cur < endL)
    (h : (strStarts l "-" || strStarts l "\\") = false)
    (hp : strStarts l "+" = false) :
    extractLoopAux (l :: rest) cnt last cur endL acc =
      extractLoopAux rest (cnt + 1) l (cur + 1) endL acc := by
  rw [extractLoopAux.eq_def]
  simp [hlt, h, hp]

/-- When enough counter-advancing lines remain, the reading loop stops exactly at
`endL`, having consumed a prefix holding `endL - cur` counter-advancing lines
whose last element advances the counter. -/
lemma extractLoopAux_ok (rem : List String) :
    ∀ cnt last cur endL acc, cur ≤ endL → endL - cur ≤ countPayload rem →
    ∃ ls p st', extractLoopAux rem cnt last cur endL acc = (ls, endL, st') ∧
      rem = p ++ st'.remaining ∧ countPayload p = endL - cur ∧
      st'.currentLine = cnt + p.length ∧
      (p = [] ∨ ∃ p₀ lst, p = p₀ ++ [lst] ∧ isPayload lst = true) := by
  induction rem with
  | nil =>
    intro cnt last cur endL acc hle hcp
    rw [countPayload_nil] at hcp
    have hcur : cur = endL := by omega
    subst hcur
    exact ⟨acc, [], ⟨[], cnt, last⟩, extractLoopAux_stop [] cnt last cur acc,
      by simp, by simp [countPayload_nil], by simp, Or.inl rfl⟩
  | cons l rest ih =>
    intro cnt last cur endL acc hle hcp
    by_cases hlt : cur < endL
    · by_cases hpay : isPayload l
      · have hpay' := (isPayload_eq_true_iff l).mp hpay
        rw [countPayload_cons, if_pos hpay] at hcp
        have hrec : endL - (cur + 1) ≤ countPayload rest := by omega
        by_cases hplus : strStarts l "+" = true
        · obtain ⟨ls, p, st', heq, hsplit, hcnt, hline, hlast⟩ :=
            ih (cnt + 1) l (cur + 1) endL (acc ++ [cur]) (by omega) hrec
          refine ⟨ls, l :: p, st', ?_, ?_, ?_, ?_, ?_⟩
          · rw [extractLoopAux_cons_add hlt hpay' hplus, heq]
          · simp [hsplit]
          · rw [countPayload_cons, if_pos hpay]; omega
          · rw [hline, List.length_cons]; omega
          · rcases hlast with h0 | ⟨p₀, lst, hp, hl⟩
            · exact Or.inr ⟨[], l, by simp [h0], hpay⟩
            · exact Or.inr ⟨l :: p₀, lst, by simp [hp], hl⟩
        · have hplus' : strStarts l "+" = false := by
            cases hx : strStarts l "+"
            · rfl
            · exact absurd hx hplus
          obtain ⟨ls, p, st', heq, hsplit, hcnt, hline, hlast⟩ :=
            ih (cnt + 1) l (cur + 1) endL acc (by omega) hrec
          refine ⟨ls, l :: p, st', ?_, ?_, ?_, ?_, ?_⟩
          · rw [extractLoopAux_cons_ctx hlt hpay' hplus', heq]
          · simp [hsplit]
          · rw [countPayload_cons, if_pos hpay]; omega
          · rw [hline, List.length_cons]; omega
          · rcases hlast with h0 | ⟨p₀, lst, hp, hl⟩
            · exact Or.inr ⟨[], l, by simp [h0], hpay⟩
            · exact Or.inr ⟨l :: p₀, lst, by simp [hp], hl⟩
      · have hpayf : isPayload l = false := by
          cases hx : isPayload l
          · rfl
          · exact absurd hx hpay
        have hpay' := (isPayload_eq_false_iff l).mp hpayf
        rw [countPayload_cons, if_neg hpay] at hcp
        obtain ⟨ls, p, st', heq, hsplit, hcnt, hline, hlast⟩ :=
          ih (cnt + 1) l cur endL acc hle (by omega)
        refine ⟨ls, l :: p, st', ?_, ?_, ?_, ?_, ?_⟩
        · rw [extractLoopAux_cons_skip hlt hpay', heq]
        · simp [hsplit]
        · rw [countPayload_cons, if_neg hpay]; omega
        · rw [hline, List.length_cons]; omega
        · rcases hlast with h0 | ⟨p₀, lst, hp, hl⟩
          · exfalso
            rw [h0, countPayload_nil] at hcnt
            omega
          · exact Or.inr ⟨l :: p₀, lst, by simp [hp], hl⟩
    · have hcur : cur = endL := by omega
      subst hcur
      exact ⟨acc, [], ⟨l :: rest, cnt, last⟩,
        extractLoopAux_stop (l :: rest) cnt last cur acc,
        by simp, by simp [countPayload_nil], by simp, Or.inl rfl⟩

/-- When too few counter-advancing lines remain, the reading loop exhausts the
stream: the counter stays short of `endL` and the final failed read leaves the
read count one past the input and an empty stored line. -/
lemma extractLoopAux_eof (rem : List String) :
    ∀ cnt last cur endL acc, countPayload rem < endL - cur →
    ∃ ls, extractLoopAux rem cnt last cur endL acc =
      (ls, cur + countPayload rem, ⟨[], cnt + rem.length + 1, ""⟩) ∧
      cur + countPayload rem < endL := by
  induction rem with
  | nil =>
    intro cnt last cur endL acc hcp
    rw [countPayload_nil] at hcp
    refine ⟨acc, ?_, by rw [countPayload_nil]; omega⟩
    rw [extractLoopAux_nil (by omega), countPayload_nil]
    simp
  | cons l rest ih =>
    intro cnt last cur endL acc hcp
    have hlt : cur < endL := by omega
    by_cases hpay : isPayload l
    · have hpay' := (isPayload_eq_true_iff l).mp hpay
      rw [countPayload_cons, if_pos hpay] at hcp
      by_cases hplus : strStarts l "+" = true
      · obtain ⟨ls, heq, hsh⟩ := ih (cnt + 1) l (cur + 1) endL (acc ++ [cur]) (by omega)
        refine ⟨ls, ?_, ?_⟩
        · rw [extractLoopAux_cons_add hlt hpay' hplus, heq,
            countPayload_cons, if_pos hpay]
          simp only [Prod.mk.injEq, Stream.mk.injEq, List.length_cons,
            and_true, true_and]
          omega
        · rw [countPayload_cons, if_pos hpay]; omega
      · have hplus' : strStarts l "+" = false := by
          cases hx : strStarts l "+"
          · rfl
          · exact absurd hx hplus
        obtain ⟨ls, heq, hsh⟩ := ih (cnt + 1) l (cur + 1) endL acc (by omega)
        refine ⟨ls, ?_, ?_⟩
        · rw [extractLoopAux_cons_ctx hlt hpay' hplus', heq,
            countPayload_cons, if_pos hpay]
          simp only [Prod.mk.injEq, Stream.mk.injEq, List.length_cons,
            and_true, true_and]
          omega
        · rw [countPayload_cons, if_pos hpay]; omega
    · have hpayf : isPayload l = false := by
        cases hx : isPayload l
        · rfl
        · exact absurd hx hpay
      have hpay' := (isPayload_eq_false_iff l).mp hpayf
      rw [countPayload_cons, if_neg hpay] at hcp
      obtain ⟨ls, heq, hsh⟩ := ih (cnt + 1) l cur endL acc (by omega)
      refine ⟨ls, ?_, ?_⟩
      · rw [extractLoopAux_cons_skip hlt hpay', heq,
          countPayload_cons, if_neg hpay]
        simp only [Prod.mk.injEq, Stream.mk.injEq, List.length_cons,
          and_true, true_and]
        omega
      · rw [countPayload_cons, if_neg hpay]; omega

end FileFilter

namespace FileFilter

lemma extractUpdatedLines_some {st : Stream} {h : String} {hd : HunksDifferences}
    (hmatch : parseHunkHeader h = some hd) :
    extractUpdatedLines st h =
      (let r := extractLoop st hd.startTo (hd.startTo + hd.countTo) []
       if r.2.1 ≠ hd.startTo + hd.countTo then
         .error (throwErr r.2.2 .errorContextHunks)
       else .ok (r.1, r.2.2)) := by
  unfold extractUpdatedLines
  rw [hmatch]

lemma extractUpdatedLines_none {st : Stream} {h : String}
    (hmatch : parseHunkHeader h = none) :
    extractUpdatedLines st h = .error (throwErr st .errorInvalidHunks) := by
  unfold extractUpdatedLines
  rw [hmatch]

/-- C10: a hunk whose header declares a destination count of zero is accepted;
the parser consumes no content lines, does not fail, and records no selected
lines for the active file. -/
theorem zero_count_hunk_consumes_nothing (st : Stream) (h : String)
    (hd : HunksDifferences) (hmatch : parseHunkHeader h = some hd)
    (hzero : hd.countTo = 0) :
    extractUpdatedLines st h = .ok ([], st) := by
  rw [extractUpdatedLines_some hmatch]
  simp only [hzero, Nat.add_zero]
  unfold extractLoop
  rw [extractLoopAux_stop]
  simp

/-- C10 witness: the pure-deletion hunk header `@@ -1,2 +3,0 @@` is accepted and
consumes nothing on a concrete stream. -/
theorem zero_count_hunk_witness :
    parseHunkHeader "@@ -1,2 +3,0 @@" = some ⟨1, 2, 3, 0⟩ ∧
    extractUpdatedLines ⟨["+x"], 0, ""⟩ "@@ -1,2 +3,0 @@" =
      .ok ([], ⟨["+x"], 0, ""⟩) :=
  ⟨rfl, zero_count_hunk_consumes_nothing ⟨["+x"], 0, ""⟩ "@@ -1,2 +3,0 @@"
    ⟨1, 2, 3, 0⟩ rfl rfl⟩

/-- C3 amended: after a hunk header declaring destination count `countTo`,
content lines are read until the destination counter reaches
`startTo + countTo`: when at least `countTo` counter-advancing lines (neither
removed-lines nor no-newline markers; a line resembling a hunk header among them
is consumed as ordinary content) remain, reading succeeds having consumed a
prefix with exactly `countTo` counter-advancing lines, ending at the last of
them; only when fewer remain in the whole stream is it exhausted, and parsing
fails with ErrorContextHunks at the line number one past the consumed input. -/
theorem hunk_reading_count_spec (st : Stream) (h : String)
    (hd : HunksDifferences) (hmatch : parseHunkHeader h = some hd) :
    (hd.countTo ≤ countPayload st.remaining →
      ∃ ls p st', extractUpdatedLines st h = .ok (ls, st') ∧
        st.remaining = p ++ st'.remaining ∧ countPayload p = hd.countTo ∧
        (p = [] ∨ ∃ p₀ lst, p = p₀ ++ [lst] ∧ isPayload lst = true))
    ∧ (countPayload st.remaining < hd.countTo →
      extractUpdatedLines st h =
        .error ⟨st.currentLine + st.remaining.length + 1, "",
          .errorContextHunks⟩) := by
  constructor
  · intro hle
    obtain ⟨ls, p, st', heq, hsplit, hcnt, hline, hlast⟩ :=
      extractLoopAux_ok st.remaining st.currentLine st.lastLineRead hd.startTo
        (hd.startTo + hd.countTo) [] (Nat.le_add_right _ _) (by omega)
    refine ⟨ls, p, st', ?_, hsplit, by omega, hlast⟩
    rw [extractUpdatedLines_some hmatch]
    unfold extractLoop
    rw [heq]
    simp
  · intro hlt
    obtain ⟨ls, heq, hsh⟩ :=
      extractLoopAux_eof st.remaining st.currentLine st.lastLineRead hd.startTo
        (hd.startTo + hd.countTo) [] (by omega)
    rw [extractUpdatedLines_some hmatch]
    unfold extractLoop
    rw [heq]
    rw [if_pos (by simp; omega)]
    simp [throwErr]

/-- C3 witness: for the header `@@ -1,2 +1,3 @@` over a stream holding a single
added line, only one counter-advancing line is available for a declared count of
3, so parsing fails with ErrorContextHunks one line past the input. -/
theorem hunk_reading_count_witness :
    parseHunkHeader "@@ -1,2 +1,3 @@" = some ⟨1, 2, 1, 3⟩ ∧
    extractUpdatedLines ⟨["+x"], 5, "hdr"⟩ "@@ -1,2 +1,3 @@" =
      .error ⟨7, "", .errorContextHunks⟩ :=
  ⟨rfl, (hunk_reading_count_spec ⟨["+x"], 5, "hdr"⟩ "@@ -1,2 +1,3 @@"
    ⟨1, 2, 1, 3⟩ rfl).2 (by decide)⟩

end FileFilter

namespace FileFilter

lemma takeDigits_of_digits (ds rest : List Char)
    (hds : ∀ c ∈ ds, c.isDigit = true)
    (hrest : ∀ c cs, rest = c :: cs → c.isDigit = false) :
    takeDigits (ds ++ rest) = (ds, rest) := by
  induction ds with
  | nil =>
    rw [List.nil_append]
    cases rest with
    | nil => rfl
    | cons c r =>
      have hc : c.isDigit = false := hrest c r rfl
      simp [takeDigits, hc]
  | cons d ds' ih =>
    have hd : d.isDigit = true := hds d (by simp)
    have ih' := ih (fun c hc => hds c (by simp [hc]))
    rw [List.cons_append]
    simp [takeDigits, hd, ih']

lemma parseRange_with_count (ds1 ds2 rest : List Char)
    (h1 : ∀ c ∈ ds1, c.isDigit = true) (hne1 : ds1 ≠ [])
    (h2 : ∀ c ∈ ds2, c.isDigit = true) (hne2 : ds2 ≠ [])
    (hrest : ∀ c cs, rest = c :: cs → c.isDigit = false) :
    parseRange (ds1 ++ (',' :: (ds2 ++ rest))) =
      some (digitsVal ds1, some (digitsVal ds2), rest) := by
  obtain ⟨d, ds1', rfl⟩ : ∃ d t, ds1 = d :: t := by
    cases ds1 with
    | nil => exact absurd rfl hne1
    | cons a b => exact ⟨a, b, rfl⟩
  obtain ⟨e, ds2', rfl⟩ : ∃ e t, ds2 = e :: t := by
    cases ds2 with
    | nil => exact absurd rfl hne2
    | cons a b => exact ⟨a, b, rfl⟩
  have hb : ∀ c cs, (',' :: ((e :: ds2') ++ rest)) = c :: cs → c.isDigit = false := by
    intro c cs h
    injection h with hh1 hh2
    subst hh1
    decide
  have ht1 := takeDigits_of_digits (d :: ds1') (',' :: ((e :: ds2') ++ rest)) h1 hb
  have ht2 := takeDigits_of_digits (e :: ds2') rest h2 hrest
  unfold parseRange
  rw [ht1]
  simp only [if_true]
  rw [ht2]

lemma parseRange_no_count (ds1 rest : List Char)
    (h1 : ∀ c ∈ ds1, c.isDigit = true) (hne1 : ds1 ≠ [])
    (hrest : ∀ c cs, rest = c :: cs → c.isDigit = false ∧ c ≠ ',') :
    parseRange (ds1 ++ rest) = some (digitsVal ds1, none, rest) := by
  obtain ⟨d, ds1', rfl⟩ : ∃ d t, ds1 = d :: t := by
    cases ds1 with
    | nil => exact absurd rfl hne1
    | cons a b => exact ⟨a, b, rfl⟩
  have ht1 := takeDigits_of_digits (d :: ds1') rest h1 (fun c cs h => (hrest c cs h).1)
  unfold parseRange
  rw [ht1]
  cases rest with
  | nil => rfl
  | cons c r =>
    have hc : c ≠ ',' := (hrest c r rfl).2
    simp only []
    rw [if_neg hc]

lemma dropWs_space (x : List Char) : dropWs (' ' :: x) = dropWs x := by
  simp [dropWs, isWsChar]

lemma dropWs_dash (x : List Char) : dropWs ('-' :: x) = '-' :: x := by
  simp [dropWs, isWsChar]

lemma dropWs_plus (x : List Char) : dropWs ('+' :: x) = '+' :: x := by
  simp [dropWs, isWsChar]

lemma dropWs_at (x : List Char) : dropWs ('@' :: x) = '@' :: x := by
  simp [dropWs, isWsChar]

lemma parseHunkHeader_full (ds1 ds2 ds3 ds4 : List Char)
    (h1 : ∀ c ∈ ds1, c.isDigit = true) (hne1 : ds1 ≠ [])
    (h2 : ∀ c ∈ ds2, c.isDigit = true) (hne2 : ds2 ≠ [])
    (h3 : ∀ c ∈ ds3, c.isDigit = true) (hne3 : ds3 ≠ [])
    (h4 : ∀ c ∈ ds4, c.isDigit = true) (hne4 : ds4 ≠ []) :
    parseHunkHeader (String.mk ('@' :: '@' :: ' ' :: '-' ::
        (ds1 ++ (',' :: (ds2 ++ (' ' :: '+' ::
          (ds3 ++ (',' :: (ds4 ++ [' ', '@', '@']))))))))) =
      some ⟨digitsVal ds1, digitsVal ds2, digitsVal ds3, digitsVal ds4⟩ := by
  have hr2 : ∀ c cs,
      (' ' :: '+' :: (ds3 ++ (',' :: (ds4 ++ [' ', '@', '@'])))) = c :: cs →
        c.isDigit = false := by
    intro c cs h
    injection h with hh1 hh2
    subst hh1
    decide
  have hp1 := parseRange_with_count ds1 ds2 _ h1 hne1 h2 hne2 hr2
  have hr4 : ∀ c cs, ([' ', '@', '@'] : List Char) = c :: cs → c.isDigit = false := by
    intro c cs h
    injection h with hh1 hh2
    subst hh1
    decide
  have hp2 := parseRange_with_count ds3 ds4 _ h3 hne3 h4 hne4 hr4
  unfold parseHunkHeader
  simp only []
  rw [dropWs_space, dropWs_dash]
  simp only []
  rw [hp1]
  simp only []
  rw [dropWs_space, dropWs_plus]
  simp only []
  rw [hp2]
  simp only []
  rw [dropWs_space, dropWs_at]
  simp

lemma parseHunkHeader_defaults (ds1 ds3 : List Char)
    (h1 : ∀ c ∈ ds1, c.isDigit = true) (hne1 : ds1 ≠ [])
    (h3 : ∀ c ∈ ds3, c.isDigit = true) (hne3 : ds3 ≠ []) :
    parseHunkHeader (String.mk ('@' :: '@' :: ' ' :: '-' ::
        (ds1 ++ (' ' :: '+' :: (ds3 ++ [' ', '@', '@']))))) =
      some ⟨digitsVal ds1, 1, digitsVal ds3, 1⟩ := by
  have hr2 : ∀ c cs,
      (' ' :: '+' :: (ds3 ++ [' ', '@', '@'])) = c :: cs →
        c.isDigit = false ∧ c ≠ ',' := by
    intro c cs h
    injection h with hh1 hh2
    subst hh1
    exact ⟨by decide, by decide⟩
  have hp1 := parseRange_no_count ds1 _ h1 hne1 hr2
  have hr4 : ∀ c cs, ([' ', '@', '@'] : List Char) = c :: cs →
      c.isDigit = false ∧ c ≠ ',' := by
    intro c cs h
    injection h with hh1 hh2
    subst hh1
    exact ⟨by decide, by decide⟩
  have hp2 := parseRange_no_count ds3 _ h3 hne3 hr4
  unfold parseHunkHeader
  simp only []
  rw [dropWs_space, dropWs_dash]
  simp only []
  rw [hp1]
  simp only []
  rw [dropWs_space, dropWs_plus]
  simp only []
  rw [hp2]
  simp only []
  rw [dropWs_space, dropWs_at]
  simp

end FileFilter

namespace FileFilter

/-- C7: a line processed as a hunk header must match
`@@ -startFrom[,countFrom] +startTo[,countTo] @@`: the four numbers are
extracted, with the counts defaulting to 1 when their comma groups are omitted;
a header not matching the shape fails with ErrorInvalidHunks at the header's own
line; and a hunk line seen before any file has been registered fails with
ErrorNoFilenameBeforeHunks. -/
theorem hunk_header_grammar :
    (∀ ds1 ds2 ds3 ds4 : List Char,
      (∀ c ∈ ds1, c.isDigit = true) → ds1 ≠ [] →
      (∀ c ∈ ds2, c.isDigit = true) → ds2 ≠ [] →
      (∀ c ∈ ds3, c.isDigit = true) → ds3 ≠ [] →
      (∀ c ∈ ds4, c.isDigit = true) → ds4 ≠ [] →
      parseHunkHeader (String.mk ('@' :: '@' :: ' ' :: '-' ::
          (ds1 ++ (',' :: (ds2 ++ (' ' :: '+' ::
            (ds3 ++ (',' :: (ds4 ++ [' ', '@', '@']))))))))) =
        some ⟨digitsVal ds1, digitsVal ds2, digitsVal ds3, digitsVal ds4⟩ ∧
      parseHunkHeader (String.mk ('@' :: '@' :: ' ' :: '-' ::
          (ds1 ++ (' ' :: '+' :: (ds3 ++ [' ', '@', '@']))))) =
        some ⟨digitsVal ds1, 1, digitsVal ds3, 1⟩)
    ∧ (∀ (st : Stream) (h : String), parseHunkHeader h = none →
        extractUpdatedLines st h =
          .error ⟨st.currentLine, st.lastLineRead, .errorInvalidHunks⟩)
    ∧ (∀ (fuel cnt : Nat) (last : String) (src : List String) (git : Bool)
        (l : String) (rest : List String), strStarts l "@@" = true →
        parseLoopAux (fuel + 1) (l :: rest) cnt last [] src git =
          .error ⟨cnt + 1, l, .errorNoFilenameBeforeHunks⟩) := by
  refine ⟨?_, ?_, ?_⟩
  · intro ds1 ds2 ds3 ds4 h1 hne1 h2 hne2 h3 hne3 h4 hne4
    exact ⟨parseHunkHeader_full ds1 ds2 ds3 ds4 h1 hne1 h2 hne2 h3 hne3 h4 hne4,
      parseHunkHeader_defaults ds1 ds3 h1 hne1 h3 hne3⟩
  · intro st h hnone
    rw [extractUpdatedLines_none hnone]
    rfl
  · intro fuel cnt last src git l rest hl
    have hg := strStarts_hunk_not_gitMarker hl
    have hf := strStarts_hunk_not_fromFile hl
    simp [parseLoopAux, hg, hf, hl]

/-- C7 witness: concrete instances of the three parts of the hunk-header
grammar theorem. -/
theorem hunk_header_grammar_witness :
    parseHunkHeader (String.mk ('@' :: '@' :: ' ' :: '-' ::
        ((['1', '0'] : List Char) ++ (',' :: ((['2'] : List Char) ++
          (' ' :: '+' :: ((['3'] : List Char) ++ (',' :: ((['4'] : List Char) ++
            [' ', '@', '@']))))))))) = some ⟨10, 2, 3, 4⟩ ∧
    extractUpdatedLines ⟨[], 3, "x"⟩ "@@ bad" =
      .error ⟨3, "x", .errorInvalidHunks⟩ ∧
    parseLoopAux 1 ["@@ -1 +1 @@"] 0 "" [] [] false =
      .error ⟨1, "@@ -1 +1 @@", .errorNoFilenameBeforeHunks⟩ :=
  ⟨(hunk_header_grammar.1 ['1', '0'] ['2'] ['3'] ['4'] (by decide) (by decide)
      (by decide) (by decide) (by decide) (by decide) (by decide) (by decide)).1,
   hunk_header_grammar.2.1 ⟨[], 3, "x"⟩ "@@ bad" (by decide),
   hunk_header_grammar.2.2 0 0 "" [] false "@@ -1 +1 @@" [] (by decide)⟩

end FileFilter

namespace FileFilter

lemma takeWhile_eq_self_of_no_tab (p : List Char) (hp : findTab p = none) :
    p.takeWhile (fun c => c != '\t') = p := by
  induction p with
  | nil => rfl
  | cons c r ih =>
    by_cases hc : (c == '\t') = true
    · exfalso
      simp [findTab, hc] at hp
    · have hc' : (c == '\t') = false := by
        cases hx : (c == '\t')
        · rfl
        · exact absurd hx hc
      have hfc : (c != '\t') = true := by simp [bne, hc']
      have hp' : findTab r = none := by
        simp [findTab, hc'] at hp
        exact hp
      simp only [List.takeWhile, hfc]
      rw [ih hp']

lemma takeWhile_eq_take_of_tab (p : List Char) :
    ∀ i, findTab p = some i → p.takeWhile (fun c => c != '\t') = p.take i := by
  induction p with
  | nil => intro i hp; simp [findTab] at hp
  | cons c r ih =>
    intro i hp
    by_cases hc : (c == '\t') = true
    · have hi : i = 0 := by
        simp [findTab, hc] at hp
        omega
      subst hi
      have hfc : (c != '\t') = false := by simp [bne, hc]
      simp only [List.takeWhile, hfc]
      rfl
    · have hc' : (c == '\t') = false := by
        cases hx : (c == '\t')
        · rfl
        · exact absurd hx hc
      have hfc : (c != '\t') = true := by simp [bne, hc']
      simp only [findTab, hc', Bool.false_eq_true, if_false,
        Option.map_eq_some'] at hp
      obtain ⟨j, hj, hij⟩ := hp
      subst hij
      simp only [List.takeWhile, hfc]
      rw [ih j hj]
      rfl

lemma extractTargetFile_marker (p : List Char) :
    extractTargetFile (String.mk ('+' :: '+' :: '+' :: ' ' :: p)) =
      String.mk (p.takeWhile (fun c => c != '\t')) := by
  cases hp : findTab p with
  | none =>
    have hft : findTab ('+' :: '+' :: '+' :: ' ' :: p) = none := by
      simp [findTab, hp]
    unfold extractTargetFile
    rw [show (String.mk ('+' :: '+' :: '+' :: ' ' :: p)).data =
      ('+' :: '+' :: '+' :: ' ' :: p) from rfl, hft]
    simp [takeWhile_eq_self_of_no_tab p hp]
  | some i =>
    have hft : findTab ('+' :: '+' :: '+' :: ' ' :: p) = some (i + 4) := by
      simp [findTab, hp]
    unfold extractTargetFile
    rw [show (String.mk ('+' :: '+' :: '+' :: ' ' :: p)).data =
      ('+' :: '+' :: '+' :: ' ' :: p) from rfl, hft]
    simp only []
    rw [if_pos (by omega : 4 ≤ i + 4)]
    rw [takeWhile_eq_take_of_tab p i hp]
    have h4 : i + 4 - 4 = i := by omega
    rw [h4]
    rfl

/-- C6: a line beginning with the from-file marker must be followed by a line
beginning with the to-file marker, which registers a new file record appended in
encounter order, its path being the to-file line's content after the marker and
truncated at the first tab; a next line without the to-file marker fails with
ErrorExpectFromFilePrefix, and a missing next line fails with
ErrorCannotReadLine. -/
theorem from_file_line_handling :
    (∀ (fuel cnt : Nat) (last : String) (files : List File) (src : List String)
       (git : Bool) (l : String), strStarts l fromFileMarker = true →
       parseLoopAux (fuel + 1) [l] cnt last files src git =
         .error ⟨cnt + 2, "", .errorCannotReadLine⟩)
    ∧ (∀ (fuel cnt : Nat) (last : String) (files : List File)
       (src : List String) (git : Bool) (l nl : String) (rest2 : List String),
       strStarts l fromFileMarker = true → strStarts nl toFileMarker = true →
       parseLoopAux (fuel + 1) (l :: nl :: rest2) cnt last files src git =
         parseLoopAux fuel rest2 (cnt + 2) nl
           (files ++ [⟨extractTargetFile nl, []⟩]) (src ++ [l]) git)
    ∧ (∀ (fuel cnt : Nat) (last : String) (files : List File)
       (src : List String) (git : Bool) (l nl : String) (rest2 : List String),
       strStarts l fromFileMarker = true → strStarts nl toFileMarker = false →
       parseLoopAux (fuel + 1) (l :: nl :: rest2) cnt last files src git =
         .error ⟨cnt + 2, nl, .errorExpectFromFilePref⟩)
    ∧ (∀ p : List Char,
       extractTargetFile (String.mk ('+' :: '+' :: '+' :: ' ' :: p)) =
         String.mk (p.takeWhile (fun c => c != '\t'))) := by
  refine ⟨?_, ?_, ?_, ?_⟩
  · intro fuel cnt last files src git l hl
    have hg := strStarts_fromFile_not_gitMarker hl
    simp [parseLoopAux, hg, hl]
  · intro fuel cnt last files src git l nl rest2 hl hnl
    have hg := strStarts_fromFile_not_gitMarker hl
    simp [parseLoopAux, hg, hl, hnl]
  · intro fuel cnt last files src git l nl rest2 hl hnl
    have hg := strStarts_fromFile_not_gitMarker hl
    simp [parseLoopAux, hg, hl, hnl]
  · exact extractTargetFile_marker

/-- C6 witness: a from-file line at end of input fails with ErrorCannotReadLine
one line past the input with empty stored text, and a concrete to-file content is
truncated at its tab. -/
theorem from_file_line_handling_witness :
    parseLoopAux 1 ["--- a"] 0 "" [] [] false =
      .error ⟨2, "", .errorCannotReadLine⟩ ∧
    extractTargetFile (String.mk ('+' :: '+' :: '+' :: ' ' :: ['b', '\t', 'c'])) =
      String.mk (['b', '\t', 'c'].takeWhile (fun c => c != '\t')) :=
  ⟨from_file_line_handling.1 0 0 "" [] [] false "--- a" (by decide),
   from_file_line_handling.2.2.2 ['b', '\t', 'c']⟩

end FileFilter

namespace FileFilter

lemma parseLoopAux_nil_rem (fuel cnt : Nat) (last : String) (files : List File)
    (src : List String) (git : Bool) :
    parseLoopAux fuel [] cnt last files src git = .ok (files, src, git) := by
  cases fuel <;> rfl

lemma parseLoopAux_gitMarker {fuel cnt : Nat} {last : String}
    {files : List File} {src : List String} {git : Bool} {l : String}
    {rest : List String} (hl : strStarts l "diff --git" = true) :
    parseLoopAux (fuel + 1) (l :: rest) cnt last files src git =
      parseLoopAux fuel rest (cnt + 1) l files src true := by
  simp [parseLoopAux, hl]

lemma parseLoopAux_fromFile_ok {fuel cnt : Nat} {last : String}
    {files : List File} {src : List String} {git : Bool} {l nl : String}
    {rest2 : List String} (hl : strStarts l fromFileMarker = true)
    (hnl : strStarts nl toFileMarker = true) :
    parseLoopAux (fuel + 1) (l :: nl :: rest2) cnt last files src git =
      parseLoopAux fuel rest2 (cnt + 2) nl
        (files ++ [⟨extractTargetFile nl, []⟩]) (src ++ [l]) git := by
  have hg := strStarts_fromFile_not_gitMarker hl
  simp [parseLoopAux, hg, hl, hnl]

lemma parseLoopAux_hunk_err {fuel cnt : Nat} {last : String} {f : File}
    {fs : List File} {src : List String} {git : Bool} {l : String}
    {rest : List String} {e : ParseErr} (hl : strStarts l "@@" = true)
    (he : extractUpdatedLines ⟨rest, cnt + 1, l⟩ l = .error e) :
    parseLoopAux (fuel + 1) (l :: rest) cnt last (f :: fs) src git =
      .error e := by
  have hg := strStarts_hunk_not_gitMarker hl
  have hf := strStarts_hunk_not_fromFile hl
  simp [parseLoopAux, hg, hf, hl, he]

lemma parseLoopAux_hunk_ok {fuel cnt : Nat} {last : String} {f : File}
    {fs : List File} {src : List String} {git : Bool} {l : String}
    {rest : List String} {ls : List Nat} {st' : Stream}
    (hl : strStarts l "@@" = true)
    (he : extractUpdatedLines ⟨rest, cnt + 1, l⟩ l = .ok (ls, st')) :
    parseLoopAux (fuel + 1) (l :: rest) cnt last (f :: fs) src git =
      parseLoopAux fuel st'.remaining st'.currentLine st'.lastLineRead
        (addSelectedLines (f :: fs) ls) src git := by
  have hg := strStarts_hunk_not_gitMarker hl
  have hf := strStarts_hunk_not_fromFile hl
  simp [parseLoopAux, hg, hf, hl, he]

lemma stripAll_of_all (files : List File)
    (h : ∀ f ∈ files, strStarts f.path gitTargetPref = true) :
    stripAll files =
      some (files.map (fun f =>
        (⟨stripHead 2 f.path, f.selectedLines⟩ : File))) := by
  induction files with
  | nil => rfl
  | cons f fs ih =>
    have hf := h f (by simp)
    have ih' := ih (fun g hg => h g (by simp [hg]))
    simp [stripAll, hf, ih']

/-- C4: prefix stripping is all-or-nothing: the internal-consistency failure is
unreachable and the output paths are all stripped of the git destination marker
exactly when detection holds, which is equivalent to the git marker having been
seen, every registered path starting with "b/", and every recorded from-file
line starting with "--- a/"; otherwise every path is left unchanged. -/
theorem git_strip_all_or_nothing (files : List File) (src : List String)
    (git : Bool) :
    updateFilePathIfGitDetected files src git =
      some (if isGitDetected files src git = true then
              files.map (fun f =>
                (⟨stripHead 2 f.path, f.selectedLines⟩ : File))
            else files)
    ∧ (isGitDetected files src git = true ↔
        git = true ∧ (∀ f ∈ files, strStarts f.path gitTargetPref = true)
          ∧ (∀ l ∈ src, strStarts l (fromFileMarker ++ "a/") = true)) := by
  have hiff : isGitDetected files src git = true ↔
      git = true ∧ (∀ f ∈ files, strStarts f.path gitTargetPref = true)
        ∧ (∀ l ∈ src, strStarts l (fromFileMarker ++ "a/") = true) := by
    unfold isGitDetected
    simp [List.all_eq_true, Bool.and_eq_true, and_assoc]
  refine ⟨?_, hiff⟩
  by_cases hdet : isGitDetected files src git = true
  · rw [if_pos hdet]
    unfold updateFilePathIfGitDetected
    rw [if_pos hdet]
    exact stripAll_of_all files (hiff.mp hdet).2.1
  · rw [if_neg hdet]
    unfold updateFilePathIfGitDetected
    rw [if_neg hdet]

end FileFilter

namespace FileFilter

/-- C1 counterexample: for the two-line new-file section whose from-file line
references the null-device sentinel, the registered file `foo.txt` is present in
the parse result, not absent. -/
theorem devnull_from_line_file_present :
    parse ["--- /dev/null", "+++ foo.txt"] = .ok [⟨"foo.txt", []⟩] := rfl

/-- C1 amended: a from-file line referencing the null-device sentinel does not
remove the registered file; only a registered destination path equal to the
sentinel is removed.  A new-file section (from-file sentinel, real to-file path
without tab) leaves its file in the result. -/
theorem new_file_from_devnull_kept (p : String) (hnt : findTab p.data = none)
    (hnn : p ≠ devNull) :
    parse ["--- /dev/null", "+++ " ++ p] = .ok [⟨p, []⟩] := by
  obtain ⟨pd⟩ := p
  have hnl : strStarts ("+++ " ++ String.mk pd) toFileMarker = true := by
    unfold strStarts toFileMarker
    rw [String.data_append]
    exact isPref_append_self _ _
  have hext : extractTargetFile ("+++ " ++ String.mk pd) = String.mk pd := by
    have hs : ("+++ " ++ String.mk pd) =
        String.mk ('+' :: '+' :: '+' :: ' ' :: pd) := rfl
    rw [hs, extractTargetFile_marker pd, takeWhile_eq_self_of_no_tab pd hnt]
  have hbeq : ((String.mk pd) == devNull) = false := beq_eq_false_iff_ne.mpr hnn
  have hsrc : strStarts "--- /dev/null" (fromFileMarker ++ devNull) = true := by
    decide
  unfold parse
  rw [parseLoopAux_fromFile_ok (by decide) hnl]
  rw [parseLoopAux_nil_rem]
  simp only [List.nil_append]
  rw [hext]
  unfold postProcess removeDevNull updateFilePathIfGitDetected isGitDetected
  simp [hbeq, hsrc]

/-- C1 amended witness: the concrete new-file section for foo.txt. -/
theorem new_file_from_devnull_kept_witness :
    parse ["--- /dev/null", "+++ " ++ "foo.txt"] = .ok [⟨"foo.txt", []⟩] :=
  new_file_from_devnull_kept "foo.txt" (by decide) (by decide)

/-- C5 counterexample: with a registered file whose destination path is the
null-device sentinel, prefix stripping still happens for the remaining file
(result path "y", not "b/y"): sentinel filtering runs before convention
detection, not after. -/
theorem devnull_path_does_not_block_strip :
    parse ["diff --git a/y b/y", "--- a/x", "+++ /dev/null",
      "--- a/y", "+++ b/y"] = .ok [⟨"y", []⟩] := rfl

/-- C5 amended: post-processing applies sentinel filtering first and convention
detection with prefix stripping second; consequently a registered file whose
destination path is the sentinel (and its from-file line) is removed before
detection and has no effect on whether the remaining paths are stripped. -/
theorem sentinel_filtered_before_detection (files : List File)
    (src : List String) (git : Bool) (f : File) (l : String)
    (hf : f.path = devNull)
    (hl : strStarts l (fromFileMarker ++ devNull) = true) :
    postProcess (f :: files) (l :: src) git = postProcess files src git := by
  unfold postProcess removeDevNull
  have hbeq : (f.path == devNull) = true := beq_iff_eq.mpr hf
  simp [hbeq, hl]

/-- C5 amended witness: dropping the sentinel file and its from-file line leaves
post-processing unchanged on a concrete input. -/
theorem sentinel_filtered_before_detection_witness :
    postProcess [⟨"/dev/null", []⟩, ⟨"b/y", []⟩]
        ["--- /dev/null", "--- a/y"] true =
      postProcess [⟨"b/y", []⟩] ["--- a/y"] true :=
  sentinel_filtered_before_detection [⟨"b/y", []⟩] ["--- a/y"] true
    ⟨"/dev/null", []⟩ "--- /dev/null" rfl (by decide)

end FileFilter

namespace FileFilter

/-- C2: the example scenario: context advances the counter past line 1, the
removed line leaves it unchanged, and the two added lines are recorded at the
next two counter values 2 and 3. -/
theorem example_scenario_selected_lines :
    parse ["--- foo.txt", "+++ foo.txt", "@@ -1,2 +1,3 @@",
      " a", "-b", "+c", "+d"] = .ok [⟨"foo.txt", [2, 3]⟩] := rfl

lemma parseLoopAux_fromFile_eof {fuel cnt : Nat} {last : String}
    {files : List File} {src : List String} {git : Bool} {l : String}
    (hl : strStarts l fromFileMarker = true) :
    parseLoopAux (fuel + 1) [l] cnt last files src git =
      .error ⟨cnt + 2, "", .errorCannotReadLine⟩ := by
  have hg := strStarts_fromFile_not_gitMarker hl
  simp [parseLoopAux, hg, hl]

lemma parseLoopAux_fromFile_bad {fuel cnt : Nat} {last : String}
    {files : List File} {src : List String} {git : Bool} {l nl : String}
    {rest2 : List String} (hl : strStarts l fromFileMarker = true)
    (hnl : strStarts nl toFileMarker = false) :
    parseLoopAux (fuel + 1) (l :: nl :: rest2) cnt last files src git =
      .error ⟨cnt + 2, nl, .errorExpectFromFilePref⟩ := by
  have hg := strStarts_fromFile_not_gitMarker hl
  simp [parseLoopAux, hg, hl, hnl]

lemma parseLoopAux_hunk_nofiles {fuel cnt : Nat} {last : String}
    {src : List String} {git : Bool} {l : String} {rest : List String}
    (hl : strStarts l "@@" = true) :
    parseLoopAux (fuel + 1) (l :: rest) cnt last [] src git =
      .error ⟨cnt + 1, l, .errorNoFilenameBeforeHunks⟩ := by
  have hg := strStarts_hunk_not_gitMarker hl
  have hf := strStarts_hunk_not_fromFile hl
  simp [parseLoopAux, hg, hf, hl]

lemma parseLoopAux_other {fuel cnt : Nat} {last : String} {files : List File}
    {src : List String} {git : Bool} {l : String} {rest : List String}
    (h1 : strStarts l "diff --git" = false)
    (h2 : strStarts l fromFileMarker = false)
    (h3 : strStarts l "@@" = false) :
    parseLoopAux (fuel + 1) (l :: rest) cnt last files src git =
      parseLoopAux fuel rest (cnt + 1) l files src git := by
  simp [parseLoopAux, h1, h2, h3]

lemma extractUpdatedLines_err_shape {st : Stream} {h : String} {e : ParseErr}
    (he : extractUpdatedLines st h = .error e) :
    e = ⟨st.currentLine, st.lastLineRead, .errorInvalidHunks⟩ ∨
    e = ⟨st.currentLine + st.remaining.length + 1, "", .errorContextHunks⟩ := by
  cases hmatch : parseHunkHeader h with
  | none =>
    rw [extractUpdatedLines_none hmatch] at he
    left
    injection he with he'
    rw [← he']
    rfl
  | some hd =>
    rw [extractUpdatedLines_some hmatch] at he
    simp only [extractLoop] at he
    by_cases hcp : countPayload st.remaining < hd.countTo
    · obtain ⟨ls, heq, hsh⟩ := extractLoopAux_eof st.remaining st.currentLine
        st.lastLineRead hd.startTo (hd.startTo + hd.countTo) [] (by omega)
      rw [heq] at he
      rw [if_pos (by simp; omega)] at he
      right
      injection he with he'
      rw [← he']
      rfl
    · obtain ⟨ls, p, st', heq, hsplit, hcnt, hline, hlast⟩ :=
        extractLoopAux_ok st.remaining st.currentLine st.lastLineRead
          hd.startTo (hd.startTo + hd.countTo) [] (Nat.le_add_right _ _)
          (by omega)
      rw [heq] at he
      simp at he

lemma extractUpdatedLines_ok_measure {st : Stream} {h : String} {ls : List Nat}
    {st' : Stream} (he : extractUpdatedLines st h = .ok (ls, st')) :
    st'.currentLine + st'.remaining.length =
      st.currentLine + st.remaining.length := by
  cases hmatch : parseHunkHeader h with
  | none =>
    rw [extractUpdatedLines_none hmatch] at he
    simp at he
  | some hd =>
    rw [extractUpdatedLines_some hmatch] at he
    simp only [extractLoop] at he
    by_cases hcp : countPayload st.remaining < hd.countTo
    · obtain ⟨ls2, heq, hsh⟩ := extractLoopAux_eof st.remaining st.currentLine
        st.lastLineRead hd.startTo (hd.startTo + hd.countTo) [] (by omega)
      rw [heq] at he
      rw [if_pos (by simp; omega)] at he
      simp at he
    · obtain ⟨ls2, p, st'', heq, hsplit, hcnt, hline, hlast⟩ :=
        extractLoopAux_ok st.remaining st.currentLine st.lastLineRead
          hd.startTo (hd.startTo + hd.countTo) [] (Nat.le_add_right _ _)
          (by omega)
      rw [heq] at he
      simp at he
      obtain ⟨hls, hst⟩ := he
      subst hst
      have hlen := congrArg List.length hsplit
      simp [List.length_append] at hlen
      omega

lemma parseLoopAux_err_bound (fuel : Nat) :
    ∀ (rem : List String) (cnt : Nat) (last : String) (files : List File)
      (src : List String) (git : Bool) (e : ParseErr),
    parseLoopAux fuel rem cnt last files src git = .error e →
    e.lineNumber ≤ cnt + rem.length + 1 ∧
      (e.lineNumber = cnt + rem.length + 1 → e.lastLine = "") := by
  induction fuel with
  | zero =>
    intro rem cnt last files src git e he
    simp [parseLoopAux] at he
  | succ fuel ih =>
    intro rem cnt last files src git e he
    cases rem with
    | nil => simp [parseLoopAux] at he
    | cons l rest =>
      by_cases hgit : strStarts l "diff --git" = true
      · rw [parseLoopAux_gitMarker hgit] at he
        obtain ⟨h1, h2⟩ := ih rest (cnt + 1) l files src true e he
        simp only [List.length_cons]
        constructor
        · omega
        · intro hx
          exact h2 (by omega)
      · have hgitf : strStarts l "diff --git" = false := by
          cases hx : strStarts l "diff --git"
          · rfl
          · exact absurd hx hgit
        by_cases hfrom : strStarts l fromFileMarker = true
        · cases rest with
          | nil =>
            rw [parseLoopAux_fromFile_eof hfrom] at he
            injection he with he'
            rw [← he']
            dsimp only
            simp only [List.length_cons, List.length_nil]
            exact ⟨by omega, fun _ => trivial⟩
          | cons nl rest2 =>
            by_cases hto : strStarts nl toFileMarker = true
            · rw [parseLoopAux_fromFile_ok hfrom hto] at he
              obtain ⟨h1, h2⟩ := ih rest2 (cnt + 2) nl
                (files ++ [⟨extractTargetFile nl, []⟩]) (src ++ [l]) git e he
              simp only [List.length_cons]
              constructor
              · omega
              · intro hx
                exact h2 (by omega)
            · have htof : strStarts nl toFileMarker = false := by
                cases hx : strStarts nl toFileMarker
                · rfl
                · exact absurd hx hto
              rw [parseLoopAux_fromFile_bad hfrom htof] at he
              injection he with he'
              rw [← he']
              dsimp only
              simp only [List.length_cons]
              exact ⟨by omega, fun hx => absurd hx (by omega)⟩
        · have hfromf : strStarts l fromFileMarker = false := by
            cases hx : strStarts l fromFileMarker
            · rfl
            · exact absurd hx hfrom
          by_cases hhunk : strStarts l "@@" = true
          · cases files with
            | nil =>
              rw [parseLoopAux_hunk_nofiles hhunk] at he
              injection he with he'
              rw [← he']
              dsimp only
              simp only [List.length_cons]
              exact ⟨by omega, fun hx => absurd hx (by omega)⟩
            | cons f fs =>
              cases hex : extractUpdatedLines ⟨rest, cnt + 1, l⟩ l with
              | error e' =>
                rw [parseLoopAux_hunk_err hhunk hex] at he
                injection he with he'
                subst he'
                rcases extractUpdatedLines_err_shape hex with hsh | hsh
                · rw [hsh]
                  dsimp only
                  simp only [List.length_cons]
                  exact ⟨by omega, fun hx => absurd hx (by omega)⟩
                · rw [hsh]
                  dsimp only
                  simp only [List.length_cons]
                  exact ⟨by omega, fun hx => trivial⟩
              | ok t =>
                obtain ⟨ls, st'⟩ := t
                rw [parseLoopAux_hunk_ok hhunk hex] at he
                obtain ⟨h1, h2⟩ := ih st'.remaining st'.currentLine
                  st'.lastLineRead (addSelectedLines (f :: fs) ls) src git e he
                have hm := extractUpdatedLines_ok_measure hex
                dsimp only at hm
                simp only [List.length_cons]
                constructor
                · omega
                · intro hx
                  exact h2 (by omega)
          · have hhunkf : strStarts l "@@" = false := by
              cases hx : strStarts l "@@"
              · rfl
              · exact absurd hx hhunk
            rw [parseLoopAux_other hgitf hfromf hhunkf] at he
            obtain ⟨h1, h2⟩ := ih rest (cnt + 1) l files src git e he
            simp only [List.length_cons]
            constructor
            · omega
            · intro hx
              exact h2 (by omega)

end FileFilter

namespace FileFilter

/-- C8 counterexample: a from-file line at end of input makes Parse fail
reporting line number 2 on a one-line input (one more than the lines present)
with empty reported text rather than the text of the last line actually read. -/
theorem eof_error_line_exceeds_input :
    parse ["--- a"] = .error (.diffErr ⟨2, "", .errorCannotReadLine⟩) ∧
      List.length ["--- a"] < 2 :=
  ⟨rfl, by decide⟩

/-- C8 amended: every parse failure reports the 1-based count of line reads
performed so far (a failed end-of-input read also counts) and the text stored by
the most recent read; hence the reported line number never exceeds the number of
input lines plus one, and a failure reported one past the input carries the
empty string as its text. -/
theorem parse_failure_line_bound (lines : List String) (e : ParseErr)
    (he : parse lines = .error (.diffErr e)) :
    e.lineNumber ≤ lines.length + 1 ∧
      (e.lineNumber = lines.length + 1 → e.lastLine = "") := by
  unfold parse at he
  cases hp : parseLoopAux (lines.length + 1) lines 0 "" [] [] false with
  | error e' =>
    rw [hp] at he
    simp at he
    subst he
    have hb := parseLoopAux_err_bound (lines.length + 1) lines 0 "" [] [] false
      e' hp
    simpa using hb
  | ok t =>
    obtain ⟨files, src, git⟩ := t
    rw [hp] at he
    dsimp only at he
    cases hpp : postProcess files src git with
    | none =>
      rw [hpp] at he
      simp at he
    | some fs =>
      rw [hpp] at he
      simp at he

/-- C8 amended witness: the concrete end-of-input failure on a one-line input
reports line 2 with empty text, within the proved bound. -/
theorem parse_failure_line_bound_witness :
    (⟨2, "", .errorCannotReadLine⟩ : ParseErr).lineNumber ≤
        List.length ["--- a"] + 1 ∧
      ((⟨2, "", .errorCannotReadLine⟩ : ParseErr).lineNumber =
          List.length ["--- a"] + 1 →
        (⟨2, "", .errorCannotReadLine⟩ : ParseErr).lastLine = "") :=
  parse_failure_line_bound ["--- a"] ⟨2, "", .errorCannotReadLine⟩ rfl

end FileFilter

namespace FileFilter

lemma fsLookup_fsSet_self (fs : Fs) (p : FsPath) (e : FsEntry) :
    fsLookup (fsSet fs p e) p = some e := by
  induction fs with
  | nil => simp [fsSet, fsLookup]
  | cons kv rest ih =>
    obtain ⟨q, e'⟩ := kv
    by_cases hq : q = p
    · simp [fsSet, fsLookup, hq]
    · simp [fsSet, fsLookup, hq, ih]

lemma fsLookup_fsSet_other (fs : Fs) (p q : FsPath) (e : FsEntry)
    (hne : q ≠ p) : fsLookup (fsSet fs p e) q = fsLookup fs q := by
  have hne' : p ≠ q := fun h => hne h.symm
  induction fs with
  | nil => simp [fsSet, fsLookup, hne']
  | cons kv rest ih =>
    obtain ⟨r, e'⟩ := kv
    by_cases hr : r = p
    · subst hr
      simp [fsSet, fsLookup, hne']
    · simp [fsSet, hr, fsLookup, ih]

lemma mkDirs_preserves (qs : List FsPath) :
    ∀ (fs : Fs) (q : FsPath) (e : FsEntry), fsLookup fs q = some e →
    ∃ e', fsLookup (mkDirs fs qs) q = some e' := by
  induction qs with
  | nil => intro fs q e h; exact ⟨e, h⟩
  | cons q0 qs ih =>
    intro fs q e h
    cases hl0 : fsLookup fs q0 with
    | some e0 =>
      rw [show mkDirs fs (q0 :: qs) = mkDirs fs qs from by rw [mkDirs, hl0]]
      exact ih fs q e h
    | none =>
      rw [show mkDirs fs (q0 :: qs) = mkDirs (fsSet fs q0 .dir) qs from by
        rw [mkDirs, hl0]]
      have hne : q ≠ q0 := by
        intro hx
        rw [hx, hl0] at h
        exact Option.noConfusion h
      exact ih (fsSet fs q0 .dir) q e
        (by rw [fsLookup_fsSet_other fs q0 q _ hne]; exact h)

lemma mkDirs_covers (qs : List FsPath) :
    ∀ (fs : Fs) (q : FsPath), q ∈ qs →
    ∃ e, fsLookup (mkDirs fs qs) q = some e := by
  induction qs with
  | nil => intro fs q h; exact absurd h (List.not_mem_nil q)
  | cons q0 qs ih =>
    intro fs q hq
    cases hl0 : fsLookup fs q0 with
    | some e0 =>
      rw [show mkDirs fs (q0 :: qs) = mkDirs fs qs from by rw [mkDirs, hl0]]
      rcases List.mem_cons.mp hq with hq0 | hqs
      · subst hq0
        exact mkDirs_preserves qs fs q e0 hl0
      · exact ih fs q hqs
    | none =>
      rw [show mkDirs fs (q0 :: qs) = mkDirs (fsSet fs q0 .dir) qs from by
        rw [mkDirs, hl0]]
      rcases List.mem_cons.mp hq with hq0 | hqs
      · subst hq0
        exact mkDirs_preserves qs (fsSet fs q .dir) q .dir
          (fsLookup_fsSet_self fs q .dir)
      · exact ih (fsSet fs q0 .dir) q hqs

/-- C9 (spec-modelled): the path form of Export creates every missing parent
directory first; if the target is then an existing directory it fails with the
invalid-output-file error naming the path (the coverage tree, a read-only input
of the model, is unaffected); otherwise it succeeds, writing the rendered
document at the path and overwriting any existing regular file there. -/
theorem export_path_form (ts : Nat) (cov : CoverageData) (p : FsPath)
    (fs : Fs) :
    (∀ q ∈ parents p, ∃ e, fsLookup (mkDirs fs (parents p)) q = some e)
    ∧ (fsLookup (mkDirs fs (parents p)) p = some .dir →
        exportToPath ts cov p fs = .error ⟨p⟩)
    ∧ (fsLookup (mkDirs fs (parents p)) p ≠ some .dir →
        exportToPath ts cov p fs =
          .ok (fsSet (mkDirs fs (parents p)) p
            (.file (renderCobertura ts cov))) ∧
        fsLookup (fsSet (mkDirs fs (parents p)) p
            (.file (renderCobertura ts cov))) p =
          some (.file (renderCobertura ts cov))) := by
  refine ⟨fun q hq => mkDirs_covers (parents p) fs q hq, ?_, ?_⟩
  · intro hdir
    unfold exportToPath
    rw [hdir]
  · intro hnd
    cases hl : fsLookup (mkDirs fs (parents p)) p with
    | none =>
      unfold exportToPath
      rw [hl]
      exact ⟨rfl, fsLookup_fsSet_self _ _ _⟩
    | some e =>
      cases e with
      | dir => exact absurd hl hnd
      | file s =>
        unfold exportToPath
        rw [hl]
        exact ⟨rfl, fsLookup_fsSet_self _ _ _⟩

/-- C9 witness: exporting to a path occupied by a directory fails with the
invalid-output-file error naming that path. -/
theorem export_path_form_witness :
    exportToPath 0 ⟨"", 0, []⟩ ["d", "out.xml"] [(["d", "out.xml"], .dir)] =
      .error ⟨["d", "out.xml"]⟩ :=
  (export_path_form 0 ⟨"", 0, []⟩ ["d", "out.xml"]
    [(["d", "out.xml"], .dir)]).2.1 rfl

end FileFilter

namespace FileFilter

/-- C3 counterexample: a hunk declaring destination count 3 followed by only one
counter-advancing line before the next hunk header does not fail with the
hunk-count-mismatch error: the next header line is itself consumed as an
ordinary content line (it is neither a removed-line nor a no-newline marker) and
the parse succeeds. -/
theorem hunk_count_swallows_header :
    parse ["--- x", "+++ x", "@@ -1 +1,3 @@", "+a", "@@ -9 +9 @@", "+b"] =
      .ok [⟨"x", [1, 3]⟩] := rfl

end FileFilter
